import Mathlib

/-!
Verification development for the cell/reference graph core of `gdsfactory`
(`src/gdsfactory/component.py`).

The Python source is shallowly embedded below:

* float coordinates are embedded as exact rationals (`ℚ`); `numpy.round`
  rounds half to even, which `roundHalfEven` mirrors exactly on rationals;
* the SHA-1 digest of a rounded polygon (an `int64` array) is injective up to
  digest collisions, so a polygon digest is embedded as the rounded polygon
  itself and the running digest as the list of per-layer data folded in the
  order the code folds it: two embedded digests are equal exactly when the
  byte streams fed to SHA-1 are equal;
* Python in-place mutation is embedded by state passing: every mutating
  method returns the component state visible to the caller when the call
  returns or raises, so an exception raised before a field update leaves the
  returned state equal to the input state, exactly as the object would be;
* `numpy.lexsort` / `numpy.sort` / `sorted` produce the sorted permutation of
  their input, which is unique as a value; they are embedded with
  `List.insertionSort`, which produces the same (stable-sorted) value.
-/

/-- GDS layer key `(layer, datatype)`, the keys of `get_polygons(by_spec=True)`. -/
abbrev LayerKey := ℤ × ℤ

/-- A polygon as emitted by the geometry kernel: a list of float vertices,
embedded with exact rational coordinates. -/
abbrev QPoly := List (ℚ × ℚ)

/-- A polygon after `_rnd`: vertices on the integer grid scaled by the inverse
precision (`int64` entries in the source). -/
abbrev RPoly := List (ℤ × ℤ)

/-- The output of `self.get_polygons(by_spec=True)`: a dict from `(layer,
datatype)` to the list of polygons on that layer pair, embedded as an
association list in dict insertion order. -/
abbrev PolySpec := List (LayerKey × List QPoly)

instance exceptDecEq {ε α : Type} [DecidableEq ε] [DecidableEq α] :
    DecidableEq (Except ε α) := fun a b =>
  match a, b with
  | .error e₁, .error e₂ =>
    if h : e₁ = e₂ then isTrue (by rw [h]) else isFalse (by intro hh; cases hh; exact h rfl)
  | .error _, .ok _ => isFalse (by intro hh; cases hh)
  | .ok _, .error _ => isFalse (by intro hh; cases hh)
  | .ok v₁, .ok v₂ =>
    if h : v₁ = v₂ then isTrue (by rw [h]) else isFalse (by intro hh; cases hh; exact h rfl)

/-- First-match association-list lookup, the embedding of Python dict lookup. -/
def alookup {κ β : Type} [DecidableEq κ] : List (κ × β) → κ → Option β
  | [], _ => none
  | (k', v) :: rest, k => if k' = k then some v else alookup rest k

/-- Round half to even, the rounding rule of `numpy.round` (used by `_rnd`),
on exact rationals. -/
def roundHalfEven (q : ℚ) : ℤ :=
  if q - ⌊q⌋ < 1/2 then ⌊q⌋
  else if q - ⌊q⌋ > 1/2 then ⌊q⌋ + 1
  else if 2 ∣ ⌊q⌋ then ⌊q⌋ else ⌊q⌋ + 1

/-- `_rnd` (component.py:78) on one coordinate:
`arr.round(ndigits) / precision` cast to `int64`, where
`ndigits = round(-log10(precision))`.  For a precision that is an exact power
of ten, `precision = 10 ^ (-ndigits)`, this is exactly
`roundHalfEven (q * 10 ^ ndigits)`; the embedding takes `ndigits` as the
parameter, which covers the default `precision=1e-4` (`ndigits = 4`). -/
def _rnd (q : ℚ) (ndigits : ℕ) : ℤ := roundHalfEven (q * 10 ^ ndigits)

/-- `_rnd` applied to a whole polygon (the source rounds the full `n × 2`
vertex array at once). -/
def rndPoly (ndigits : ℕ) (p : QPoly) : RPoly :=
  p.map (fun pt => (_rnd pt.1 ndigits, _rnd pt.2 ndigits))

/-- The key order produced by `np.lexsort((layers[:, 0], layers[:, 1]))`
(component.py:1438): `numpy.lexsort` uses its LAST key as the primary sort
key, so this sorts by datatype first and layer second. -/
def layerLe (a b : LayerKey) : Prop := a.2 < b.2 ∨ (a.2 = b.2 ∧ a.1 ≤ b.1)

instance layerLe.dec : DecidableRel layerLe := fun a b => by
  unfold layerLe; exact inferInstance

instance layerLe.total : IsTotal LayerKey layerLe :=
  ⟨by rintro ⟨a1, a2⟩ ⟨b1, b2⟩; simp [layerLe]; omega⟩

instance layerLe.trans : IsTrans LayerKey layerLe :=
  ⟨by rintro ⟨a1, a2⟩ ⟨b1, b2⟩ ⟨c1, c2⟩; simp [layerLe]; omega⟩

instance layerLe.antisymm : IsAntisymm LayerKey layerLe :=
  ⟨by rintro ⟨a1, a2⟩ ⟨b1, b2⟩; simp [layerLe]; omega⟩

/-- Strict order on rounded vertices, used to build the lexicographic order on
rounded polygons below. -/
def pointLt (p q : ℤ × ℤ) : Prop := p.1 < q.1 ∨ (p.1 = q.1 ∧ p.2 < q.2)

instance pointLt.dec : DecidableRel pointLt := fun p q => by
  unfold pointLt; exact inferInstance

/-- A total order on rounded polygons.  The source sorts the per-polygon
SHA-1 digests with `np.sort`; since the digest is embedded injectively, any
total order on rounded polygons yields the same canonical value for a given
multiset of polygons, and lexicographic order is used here. -/
def polyLeB : RPoly → RPoly → Bool
  | [], _ => true
  | _ :: _, [] => false
  | p :: ps, q :: qs => if p = q then polyLeB ps qs else decide (pointLt p q)

/-- Propositional form of `polyLeB`. -/
def polyLe (a b : RPoly) : Prop := polyLeB a b = true

instance polyLe.dec : DecidableRel polyLe := fun a b => by
  unfold polyLe; exact inferInstance

instance polyLe.total : IsTotal RPoly polyLe := ⟨by
  suffices h : ∀ a b : RPoly, polyLeB a b = true ∨ polyLeB b a = true by
    intro a b; exact h a b
  intro a
  induction a with
  | nil => intro b; left; rfl
  | cons p ps ih =>
    intro b
    cases b with
    | nil => right; rfl
    | cons q qs =>
      by_cases h : p = q
      · subst h
        rcases ih qs with h' | h'
        · left; simpa [polyLeB] using h'
        · right; simpa [polyLeB] using h'
      · have h' : ¬ q = p := fun e => h e.symm
        obtain ⟨p1, p2⟩ := p
        obtain ⟨q1, q2⟩ := q
        simp only [polyLeB, if_neg h, if_neg h', decide_eq_true_eq]
        simp only [pointLt, Prod.mk.injEq] at *
        omega⟩

instance polyLe.trans : IsTrans RPoly polyLe := ⟨by
  suffices h : ∀ a b c : RPoly, polyLeB a b = true → polyLeB b c = true → polyLeB a c = true by
    intro a b c hab hbc; exact h a b c hab hbc
  intro a
  induction a with
  | nil => intro b c _ _; rfl
  | cons p ps ih =>
    intro b c hab hbc
    cases b with
    | nil => simp [polyLeB] at hab
    | cons q qs =>
      cases c with
      | nil => simp [polyLeB] at hbc
      | cons r rs =>
        by_cases hpq : p = q <;> by_cases hqr : q = r
        · subst hpq; subst hqr
          simp only [polyLeB, if_pos rfl] at *
          exact ih qs rs hab hbc
        · subst hpq
          simp only [polyLeB, if_pos rfl, if_neg hqr] at *
          simp [hqr, hbc]
        · subst hqr
          simp only [polyLeB, if_pos rfl, if_neg hpq] at *
          simp [hpq, hab]
        · simp only [polyLeB, if_neg hpq, if_neg hqr] at hab hbc
          have h1 : pointLt p q := by simpa using hab
          have h2 : pointLt q r := by simpa using hbc
          obtain ⟨p1, p2⟩ := p
          obtain ⟨q1, q2⟩ := q
          obtain ⟨r1, r2⟩ := r
          have hpr : pointLt (p1, p2) (r1, r2) := by
            simp only [pointLt] at *; omega
          have hne : ¬ (p1, p2) = (r1, r2) := by
            simp only [pointLt, Prod.mk.injEq] at *; omega
          simp [polyLeB, hne, hpr]⟩

instance polyLe.antisymm : IsAntisymm RPoly polyLe := ⟨by
  suffices h : ∀ a b : RPoly, polyLeB a b = true → polyLeB b a = true → a = b by
    intro a b hab hba; exact h a b hab hba
  intro a
  induction a with
  | nil =>
    intro b _ hba
    cases b with
    | nil => rfl
    | cons q qs => simp [polyLeB] at hba
  | cons p ps ih =>
    intro b hab hba
    cases b with
    | nil => simp [polyLeB] at hab
    | cons q qs =>
      by_cases hpq : p = q
      · subst hpq
        simp only [polyLeB, if_pos rfl] at hab hba
        rw [ih qs hab hba]
      · have hqp : ¬ q = p := fun e => hpq e.symm
        simp only [polyLeB, if_neg hpq, if_neg hqp] at hab hba
        have h1 : pointLt p q := by simpa using hab
        have h2 : pointLt q p := by simpa using hba
        obtain ⟨p1, p2⟩ := p
        obtain ⟨q1, q2⟩ := q
        simp only [pointLt] at h1 h2
        omega⟩

/-- Per-layer canonical polygon data of `hash_geometry` (component.py:1444):
round every polygon with `_rnd`, hash each one, and sort the digests
(`np.sort`).  Digests are embedded injectively, so this is the sorted list of
rounded polygons. -/
def canonPolys (ndigits : ℕ) (polys : List QPoly) : List RPoly :=
  List.insertionSort polyLe (polys.map (rndPoly ndigits))

/-- The data folded into the running SHA-1 digest by `Component.hash_geometry`
(component.py:1436-1450), in fold order: for each layer key in
`np.lexsort((layers[:, 0], layers[:, 1]))` order, the layer digest followed by
the sorted polygon digests of that layer. -/
def hashCore (d : PolySpec) (ndigits : ℕ) : List (LayerKey × List RPoly) :=
  (List.insertionSort layerLe (d.map Prod.fst)).map
    (fun k => (k, canonPolys ndigits ((alookup d k).getD [])))

/-- Failure mode of `hash_geometry`. -/
inductive GeomError where
  | indexError
deriving DecidableEq, Repr

/-- `Component.hash_geometry` (component.py:1423).  When the component has no
polygons at all, `get_polygons(by_spec=True)` is the empty dict, so
`layers[:, 0]` indexes an empty 1-dimensional `np.array` and raises
`IndexError`; otherwise the digest (embedded as the folded byte-stream data)
is returned. -/
def hash_geometry (d : PolySpec) (ndigits : ℕ) :
    Except GeomError (List (LayerKey × List RPoly)) :=
  if d.isEmpty then .error .indexError else .ok (hashCore d ndigits)

/-- The layer-key order the spec describes for the fold: ascending
lexicographic with the layer number primary and the datatype secondary.
Stated from the spec's words, to compare with the order the code uses. -/
def specLayerDatatypeLe (a b : LayerKey) : Prop :=
  a.1 < b.1 ∨ (a.1 = b.1 ∧ a.2 ≤ b.2)

instance specLayerDatatypeLe.dec : DecidableRel specLayerDatatypeLe := fun a b => by
  unfold specLayerDatatypeLe; exact inferInstance

/-- Raised by `Component.is_unlocked` (component.py:717) when a locked
component is about to be mutated. -/
inductive MutabilityError where
  | locked (componentName : String)
deriving DecidableEq, Repr

/-- A `Port` (gdsfactory/port.py, not under `src/`).  Modelled from the spec:
a typed, oriented connection point with `name`, `center`, `width`,
`orientation`, `layer`, `port_type` and a weak back-reference to the owning
cell (held as the owner's uid).  `name` is `Option`al because
`Port(name=None, ...)` is accepted by `add_port`'s constructor branch.
`port.copy(new_uid=True)` preserves every geometry field and only refreshes
the internal id, which the embedding does not track. -/
structure Port where
  name : Option String
  center : ℚ × ℚ
  width : ℚ
  orientation : Option ℚ
  layer : LayerKey
  port_type : String
  parent : Option ℕ
deriving DecidableEq, Repr

/-- The data of a `ComponentReference` that `component.py` reads and writes
(`reference.parent`, `reference.name`, `reference.owner`).  Modelled from the
spec: a Placement records the referenced cell (here by uid plus the naming
data `_register_reference` consults), an alias (`name`), and the owning cell;
constructing `ComponentReference(component)`
(gdsfactory/component_reference.py, not under `src/`) only records the
referenced cell, with no alias and no owner yet. -/
structure RefData where
  name : Option String
  parentUid : ℕ
  parentName : String
  parentFunctionName : Option String
  owner : Option ℕ
deriving DecidableEq, Repr

/-- An element accepted by `Component.add` / `Component._add`: a gdspy
`PolygonSet`, `Label`, or cell reference.  (`_add` also accepts iterables of
these; a Lean caller passes the elements one by one.) -/
inductive Element where
  | polygonSet (points : QPoly) (layer : LayerKey)
  | label (text : String) (layer : LayerKey)
  | reference (r : RefData)
deriving DecidableEq, Repr

/-- The `Component` state that the operations under verification touch
(component.py:116-139): name, uid, the gdspy element lists, the port dict
(association list keyed by port name, in dict insertion order), the `_locked`
flag, `_reference_names_counter`, `_reference_names_used`, and
`settings.function_name` when present (`settings` is a plain dict at
creation; the `@cell` decorator can store `function_name` in it). -/
structure Component where
  name : String
  uid : ℕ
  polygons : List (QPoly × LayerKey)
  labels : List (String × LayerKey)
  ports : List (Option String × Port)
  references : List RefData
  locked : Bool
  referenceNamesCounter : List (String × ℕ)
  referenceNamesUsed : List String
  settingsFunctionName : Option String
deriving DecidableEq, Repr

/-- A fresh `Component(name)` as `__init__` builds it: empty geometry, ports
and references, unlocked, empty reference-name counter and used set. -/
def mkComponent (name : String) (uid : ℕ) : Component :=
  { name := name, uid := uid, polygons := [], labels := [], ports := [],
    references := [], locked := false, referenceNamesCounter := [],
    referenceNamesUsed := [], settingsFunctionName := none }

/-- `Component.is_unlocked` (component.py:717): raises `MutabilityError` when
`_locked` is set, returns nothing otherwise. -/
def Component.is_unlocked (c : Component) : Option MutabilityError :=
  if c.locked then some (.locked c.name) else none

/-- `Component._add` (component.py:725): check `is_unlocked`, then
`super().add(element)` appends the element to the matching gdspy list.
Returns the component state seen by the caller plus the raised error, if
any; on the error path the state is the input state because the raise
happens before any field update. -/
def Component._add (c : Component) (e : Element) : Component × Option MutabilityError :=
  match c.is_unlocked with
  | some err => (c, some err)
  | none =>
    match e with
    | .polygonSet pts l => ({ c with polygons := c.polygons ++ [(pts, l)] }, none)
    | .label t l => ({ c with labels := c.labels ++ [(t, l)] }, none)
    | .reference r => ({ c with references := c.references ++ [r] }, none)

/-- `Counter[k]` with default 0 (`collections.Counter` lookup). -/
def counterGet (cnt : List (String × ℕ)) (k : String) : ℕ :=
  (alookup cnt k).getD 0

/-- `Counter.update({k: 1})`: add 1 to the count of `k`, inserting it if
absent (new keys go to the end, as in a dict). -/
def counterUpdate (cnt : List (String × ℕ)) (k : String) : List (String × ℕ) :=
  if (alookup cnt k).isSome then
    cnt.map (fun e => if e.1 = k then (e.1, e.2 + 1) else e)
  else cnt ++ [(k, 1)]

/-- The `while alias in self._reference_names_used` loop of
`_register_reference` (component.py:857-859): bump the counter for `pfx` and
rebuild the candidate until it is not in `used`.  The loop is embedded with
explicit fuel; `used.length + 1` iterations always suffice because the
candidates are pairwise distinct, and in this program `used` is in fact
always empty (nothing ever inserts into `_reference_names_used`), so the
loop body never runs. -/
def aliasSearch (used : List String) (pfx : String) :
    ℕ → List (String × ℕ) → String → List (String × ℕ) × String
  | 0, cnt, cand => (cnt, cand)
  | fuel + 1, cnt, cand =>
    if cand ∈ used then
      let cnt' := counterUpdate cnt pfx
      aliasSearch used pfx fuel cnt' (pfx ++ "_" ++ toString (counterGet cnt' pfx))
    else (cnt, cand)

/-- `Component._register_reference` (component.py:838-861): set the
reference's owner; choose its alias: the explicit `alias` argument if given,
else the reference's existing name if any, else auto-generate
`{pfx}_{counter[pfx]}` from the referenced cell's `settings.function_name`
(fallback: its name), skipping names in `_reference_names_used`.  Returns the
updated owning component (its counter) and the named reference. -/
def Component._register_reference (c : Component) (r : RefData) (a : Option String) :
    Component × RefData :=
  let r := { r with owner := some c.uid }
  match a with
  | some al => (c, { r with name := some al })
  | none =>
    match r.name with
    | some _ => (c, r)
    | none =>
      let pfx := r.parentFunctionName.getD r.parentName
      let cnt := counterUpdate c.referenceNamesCounter pfx
      let cand := pfx ++ "_" ++ toString (counterGet cnt pfx)
      let (cnt', al) :=
        aliasSearch c.referenceNamesUsed pfx (c.referenceNamesUsed.length + 1) cnt cand
      ({ c with referenceNamesCounter := cnt' }, { r with name := some al })

/-- `Component.add` (component.py:738): `_add`, then `_register_reference`
for reference elements.  In the source `_add` appends the reference object
and `_register_reference` then names it in place; the embedding stores the
registered reference directly, which yields the same final state. -/
def Component.add (c : Component) (e : Element) : Component × Option MutabilityError :=
  match c.is_unlocked with
  | some err => (c, some err)
  | none =>
    match e with
    | .reference r =>
      let (c', r') := c._register_reference r none
      ({ c' with references := c'.references ++ [r'] }, none)
    | e => c._add e

/-- `Component.add_ref` (component.py:827-836): build
`ComponentReference(component)`, `_add` it (which raises `MutabilityError`
when the owning cell is locked, leaving both cells unchanged), then
`_register_reference`.  The non-`Device` `TypeError` branch is
unrepresentable here because the embedding is typed.  Returns the updated
owning cell, the referenced cell as `add_ref` leaves it (the source never
writes to it), and the registered reference. -/
def Component.add_ref (c : Component) (child : Component) (a : Option String) :
    Component × Component × Except MutabilityError RefData :=
  let r : RefData :=
    { name := none, parentUid := child.uid, parentName := child.name,
      parentFunctionName := child.settingsFunctionName, owner := none }
  match c.is_unlocked with
  | some err => (c, child, .error err)
  | none =>
    let (c', r') := c._register_reference r a
    ({ c' with references := c'.references ++ [r'] }, child, .ok r')

/-- Failure modes of `Component.add_port` (all `ValueError` in the source). -/
inductive AddPortError where
  | widthMissing
  | centerMissing
  | nameExists (portName : Option String) (componentName : String)
deriving DecidableEq, Repr

/-- Final steps of `Component.add_port` (component.py:569-575): apply the
explicit `name` override, raise `ValueError` when the resulting name is
already a key of `self.ports` — before any update to the component — and
otherwise insert the port. -/
def finishAddPort (c : Component) (name : Option String) (p : Port) :
    Component × Except AddPortError Port :=
  let p := match name with | some n => { p with name := some n } | none => p
  if (alookup c.ports p.name).isSome then
    (c, .error (.nameExists p.name c.name))
  else
    ({ c with ports := c.ports ++ [(p.name, p)] }, .ok p)

/-- `Component.add_port` (component.py:497-575).  When `port` is given it is
copied (fresh internal id), optionally renamed, and reparented; otherwise a
new `Port` is built, raising `ValueError` when `width` or `center` is
missing.  (The source's `elif isinstance(name, Port)` overload — the port
passed positionally as `name` — behaves as the `port` branch with no rename
and is covered by it; names are typed as strings here.)  There is no
`is_unlocked` check anywhere in `add_port`. -/
def Component.add_port (c : Component) (name : Option String)
    (center : Option (ℚ × ℚ)) (width : Option ℚ) (orientation : Option ℚ)
    (port : Option Port) (layer : LayerKey) (port_type : String) :
    Component × Except AddPortError Port :=
  match port with
  | some p0 => finishAddPort c name { p0 with parent := some c.uid }
  | none =>
    match width with
    | none => (c, .error .widthMissing)
    | some w =>
      match center with
      | none => (c, .error .centerMissing)
      | some ctr =>
        finishAddPort c name
          { name := name, center := ctr, width := w, orientation := orientation,
            layer := layer, port_type := port_type, parent := some c.uid }

/-- An item accepted by `Component.remove` (component.py:1400). -/
inductive RemoveItem where
  | port (p : Port)
  | polygonSet (ps : QPoly × LayerKey)
  | reference (r : RefData)
  | label (lb : String × LayerKey)
deriving DecidableEq, Repr

/-- `Component.remove` (component.py:1400-1421): drop ports equal to the
item, or `list.remove` (first occurrence) for polygon sets, references and
labels.  The source also nulls the removed reference's `owner` and
invalidates the cached bounding box; neither is part of the embedded state.
There is no `is_unlocked` check anywhere in `remove`, and no error path. -/
def Component.remove (c : Component) (it : RemoveItem) : Component :=
  match it with
  | .port p => { c with ports := c.ports.filter (fun kv => kv.2 ≠ p) }
  | .polygonSet ps => { c with polygons := c.polygons.erase ps }
  | .reference r => { c with references := c.references.erase r }
  | .label lb => { c with labels := c.labels.erase lb }

/-- Warnings `write_gds` can emit through `warnings.warn`. -/
inductive GdsWarning where
  | duplicatedCellNames (topName : String) (dups : List String)
  | unnamedCells (topName : String) (count : ℕ)
deriving DecidableEq, Repr

/-- Terminal outcome of `write_gds`. -/
inductive WriteGdsOutcome where
  | written (cells : List Component)
  | duplicateError (topName : String) (dups : List String)
  | invalidPolicy (policy : String)
deriving DecidableEq, Repr

/-- Observable result of a `write_gds` call: the outcome, the warnings
emitted, and whether `lib.write_gds` — the only statement that writes bytes
of the library — was reached. -/
structure WriteGdsResult where
  outcome : WriteGdsOutcome
  warnings : List GdsWarning
  bytesWritten : Bool
deriving DecidableEq, Repr

/-- `sorted(cells, key=lambda cc: cc.name)` (component.py:1136): a stable
sort by name, embedded as insertion sort (stable, so the same value). -/
def sortByName (cells : List Component) : List Component :=
  List.insertionSort (fun a b : Component => a.name ≤ b.name) cells

/-- `{cell.name: cell for cell in cells}.values()` (component.py:1129-1130):
a dict keyed by name keeps keys in first-occurrence order and each key's
value is the last cell written, so the result is, for each distinct name in
first-occurrence order, the last cell bearing it. -/
def dedupKeepLast (cells : List Component) : List Component :=
  ((cells.map Component.name).dedup).filterMap
    (fun n => (cells.filter (fun cc => cc.name = n)).getLast?)

/-- `for cell_name in cell_names_unique: cell_names.remove(cell_name)`
(component.py:1117-1118): remove the first occurrence of each distinct name,
leaving one occurrence fewer of every name — the duplicate extras.
`cell_names_unique` is a Python set; its iteration order does not affect the
result because the removals touch distinct values, so the embedding iterates
in first-occurrence order. -/
def duplicateExtras (cellNames : List String) : List String :=
  cellNames.dedup.foldl (fun l n => l.erase n) cellNames

/-- `Component.write_gds` (component.py:1077-1152) from the point where the
dependency cells are in hand.  `cells` is the result of
`self.get_dependencies(recursive=True)` — the set of distinct cell objects
transitively referenced, computed by the external phidl/gdspy base class and
passed in here as an enumeration of that set.  Path handling and the final
gdspy serialization are external I/O; the embedding records the cell list
handed to `lib.write_gds` and whether that call was reached. -/
def Component.write_gds (c : Component) (cells : List Component)
    (onDuplicateCell : Option String) : WriteGdsResult :=
  let cellNames := cells.map Component.name
  let step : Option WriteGdsOutcome × List Component × List GdsWarning :=
    if cellNames.length = cellNames.dedup.length then (none, cells, [])
    else
      match onDuplicateCell with
      | some "error" => (some (.duplicateError c.name (duplicateExtras cellNames)), cells, [])
      | some "warn" =>
        (none, dedupKeepLast cells,
          [.duplicatedCellNames c.name (duplicateExtras cellNames)])
      | some "overwrite" => (none, dedupKeepLast cells, [])
      | some other => (some (.invalidPolicy other), cells, [])
      | none => (none, cells, [])
  match step with
  | (some out, _, ws) => { outcome := out, warnings := ws, bytesWritten := false }
  | (none, resolved, ws) =>
    let allCells := c :: sortByName resolved
    let noName := allCells.filter (fun cc => cc.name.startsWith "Unnamed")
    let ws' := ws ++ (if noName.isEmpty then [] else [.unnamedCells c.name noName.length])
    { outcome := .written allCells, warnings := ws', bytesWritten := true }

/-- Failure modes of `write_oas`. -/
inductive OasError where
  | importError
  | readError
  | writeError
deriving DecidableEq, Repr

/-- Environment of a `write_oas` call: whether the optional `klayout`
dependency imports, and whether the two external conversion steps
(`layout.read` and `topcell.write`) succeed. -/
structure OasEnv where
  klayoutAvailable : Bool
  readOk : Bool
  writeOk : Bool
deriving DecidableEq, Repr

/-- `s.lower()` on the characters of a string. -/
def strToLower (s : String) : String := ⟨s.data.map Char.toLower⟩

/-- `s.endswith(suf)`. -/
def strEndsWith (s suf : String) : Bool :=
  List.isPrefixOf suf.data.reverse s.data.reverse

/-- `os.path.splitext(s)[0]`: the string up to the last dot (the whole
string when there is no dot). -/
def splitextRoot (s : String) : String :=
  if '.' ∈ s.data then ⟨((s.data.reverse.dropWhile (fun ch => ch ≠ '.')).drop 1).reverse⟩
  else s

/-- The output file name `write_oas` settles on: the input, with `.oas`
appended unless already present (case-insensitively). -/
def oasFinalName (filename : String) : String :=
  if strEndsWith (strToLower filename) ".oas" then filename else filename ++ ".oas"

/-- `tempfilename = f"{fileroot}-tmp.gds"` (component.py:1179). -/
def oasTmpName (filename : String) : String :=
  splitextRoot (oasFinalName filename) ++ "-tmp.gds"

/-- `Component.write_oas` (component.py:1162-1190).  The file system is
embedded as the list of files written so far.  Control flow of the source,
in order: a `.gds` filename is diverted to `write_gds` (returning `None`);
the `klayout` import is attempted (an `ImportError` propagates before the
temporary file exists); the `.oas` suffix is fixed up; `write_gds` writes
the temporary GDS file; `layout.read` and `topcell.write` perform the
conversion — an exception in either propagates immediately, and only after
both succeed does `os.remove(tempfilename)` run.  There is no
`try`/`finally` around the conversion. -/
def Component.write_oas (_c : Component) (filename : String) (env : OasEnv)
    (fs : List String) : List String × Except OasError (Option String) :=
  if strEndsWith (strToLower filename) ".gds" then
    (fs ++ [filename], .ok none)
  else if ¬ env.klayoutAvailable then
    (fs, .error .importError)
  else
    let fname := oasFinalName filename
    let tmpname := oasTmpName filename
    let fs := fs ++ [tmpname]
    if ¬ env.readOk then (fs, .error .readError)
    else if ¬ env.writeOk then (fs, .error .writeError)
    else ((fs ++ [fname]).erase tmpname, .ok (some fname))

/-- The port name `add_port` ends up checking against `self.ports`: the
explicit `name` argument when given, else the copied port's own name. -/
def resolvedPortName (name : Option String) (port : Option Port) : Option String :=
  match name, port with
  | some n, _ => some n
  | none, some p0 => p0.name
  | none, none => none

/-- Replace the entry at index `n` by `f` of it; out-of-range indices leave
the list unchanged. -/
def listModify {α : Type} (l : List α) (n : ℕ) (f : α → α) : List α :=
  match l.get? n with
  | some a => l.set n (f a)
  | none => l

/-- Move the x-coordinate of vertex `j` of polygon `i` on layer `k` by `δ`:
the by-spec polygon dict of the same cell after one vertex moved. -/
def moveVertexX (d : PolySpec) (k : LayerKey) (i j : ℕ) (δ : ℚ) : PolySpec :=
  d.map (fun e =>
    if e.1 = k then
      (e.1, listModify e.2 i (fun poly => listModify poly j (fun pt => (pt.1 + δ, pt.2))))
    else e)

/-- The cell of the C2 scenario that the three placements reference. -/
def c2Child : Component := mkComponent "x" 1

/-- The C2 scenario: on a fresh owning cell, add a placement with the
explicit alias `"x_2"`, then two placements with auto-generated aliases, all
referencing a cell named `"x"`. -/
def c2Seq : Component :=
  let s1 := ((mkComponent "top" 0).add_ref c2Child (some "x_2")).1
  let s2 := (s1.add_ref c2Child none).1
  (s2.add_ref c2Child none).1

/-- A locked sample cell with one registered reference and no ports. -/
def lockedSampleC : Component :=
  { name := "c", uid := 7, polygons := [], labels := [], ports := [],
    references := [⟨some "r1", 1, "x", none, some 7⟩], locked := true,
    referenceNamesCounter := [], referenceNamesUsed := [],
    settingsFunctionName := none }

/-- C10: for every cell whose flattened polygon set is empty,
`hash_geometry` raises an exception — `layers[:, 0]` indexes the empty
layer array — instead of returning a digest of the empty geometry. -/
theorem hash_geometry_empty_raises (d : PolySpec) (ndigits : ℕ) (h : d = []) :
    hash_geometry d ndigits = .error .indexError := by
  subst h; rfl

/-- Witness for `hash_geometry_empty_raises` at the empty polygon dict. -/
theorem hash_geometry_empty_raises_witness :
    hash_geometry [] 4 = .error .indexError :=
  hash_geometry_empty_raises [] 4 rfl

/-- C2 (failing input): on one owning cell, an explicit alias `"x_2"`
followed by two auto-generated aliases for a cell named `"x"` yields the
alias list `["x_2", "x_1", "x_2"]` — two distinct placements share the alias
`"x_2"`, because `_reference_names_used` is never populated and the
collision-avoidance loop in `_register_reference` therefore never fires. -/
theorem register_reference_duplicate_aliases :
    c2Seq.references.map RefData.name = [some "x_2", some "x_1", some "x_2"] ∧
    ¬ (c2Seq.references.map RefData.name).Nodup := by
  constructor
  · rfl
  · decide

/-- C6 (counterexample): `add_ref` on a fresh unlocked parent returns with
the placement registered, yet the referenced child's `locked` flag is still
`false` — `add_ref` does not lock the referenced cell (locking happens only
in `Component.lock`, which the cache calls). -/
theorem add_ref_does_not_lock_child_counterexample :
    ((mkComponent "parent" 0).add_ref (mkComponent "child" 1) none).2.2
      = .ok { name := some "child_1", parentUid := 1, parentName := "child",
              parentFunctionName := none, owner := some 0 } ∧
    ((mkComponent "parent" 0).add_ref (mkComponent "child" 1) none).2.1.locked = false := by
  constructor
  · rfl
  · rfl

/-- C6 (amended): `add_ref` on an unlocked owning cell creates and registers
the placement and returns the referenced cell exactly as it was — in
particular its `locked` flag is unchanged, not set. -/
theorem add_ref_leaves_child_unchanged (c child : Component) (a : Option String)
    (hunlocked : c.locked = false) :
    (c.add_ref child a).2.1 = child ∧
    (∃ r, (c.add_ref child a).2.2 = .ok r) := by
  unfold Component.add_ref Component.is_unlocked
  simp [hunlocked]

/-- Witness for `add_ref_leaves_child_unchanged` on concrete cells. -/
theorem add_ref_leaves_child_unchanged_witness :
    ((mkComponent "p" 0).add_ref (mkComponent "q" 1) none).2.1 = mkComponent "q" 1 ∧
    (∃ r, ((mkComponent "p" 0).add_ref (mkComponent "q" 1) none).2.2 = .ok r) :=
  add_ref_leaves_child_unchanged (mkComponent "p" 0) (mkComponent "q" 1) none rfl

/-- C1 (counterexample): a locked cell accepts `add_port` — the call does
not fail with an immutability error and the port mapping changes. -/
theorem locked_add_port_counterexample :
    ({ mkComponent "c" 0 with locked := true } : Component).locked = true ∧
    (({ mkComponent "c" 0 with locked := true } : Component).add_port (some "o1")
        (some (0, 0)) (some 1) none none (1, 0) "optical").1.ports
      ≠ ({ mkComponent "c" 0 with locked := true } : Component).ports := by
  constructor
  · rfl
  · decide

/-- C1 (amended): on a locked cell, the mutations that go through
`_add`/`add` — adding geometry elements, labels, or placements, including
`add_ref` — fail with a `MutabilityError` and leave the cell unchanged; but
`add_port` and `remove` perform no lock check: `add_port` with a fresh name
succeeds and extends the port mapping, and `remove` deletes a present
reference, both despite the lock. -/
theorem locked_component_mutations (c : Component) (e : Element)
    (child : Component) (a : Option String) (n : String)
    (ctr : ℚ × ℚ) (w : ℚ) (ornt : Option ℚ) (layer : LayerKey) (pt : String)
    (r : RefData)
    (hlock : c.locked = true)
    (hfresh : alookup c.ports (some n) = none)
    (hr : r ∈ c.references) :
    c._add e = (c, some (.locked c.name)) ∧
    c.add e = (c, some (.locked c.name)) ∧
    c.add_ref child a = (c, child, .error (.locked c.name)) ∧
    (c.add_port (some n) (some ctr) (some w) ornt none layer pt).1.ports
      = c.ports ++ [(some n, ⟨some n, ctr, w, ornt, layer, pt, some c.uid⟩)] ∧
    (c.add_port (some n) (some ctr) (some w) ornt none layer pt).2
      = .ok ⟨some n, ctr, w, ornt, layer, pt, some c.uid⟩ ∧
    (c.remove (.reference r)).references.length + 1 = c.references.length := by
  have hlen : 0 < c.references.length := List.length_pos.mpr (List.ne_nil_of_mem hr)
  refine ⟨?_, ?_, ?_, ?_, ?_, ?_⟩
  · unfold Component._add Component.is_unlocked; simp [hlock]
  · unfold Component.add Component.is_unlocked; simp [hlock]
  · unfold Component.add_ref Component.is_unlocked; simp [hlock]
  · unfold Component.add_port finishAddPort; simp [hfresh]
  · unfold Component.add_port finishAddPort; simp [hfresh]
  · unfold Component.remove
    simp only
    rw [List.length_erase_of_mem hr]
    omega

/-- Witness for `locked_component_mutations` on a concrete locked cell with
one reference and no ports. -/
theorem locked_component_mutations_witness :
    ((lockedSampleC)._add (.label "t" (1, 0)) = (lockedSampleC, some (.locked "c"))) ∧
    ((lockedSampleC).add_port (some "p") (some (0, 0)) (some 1) none none (2, 0) "optical").2
      = .ok ⟨some "p", (0, 0), 1, none, (2, 0), "optical", some 7⟩ := by
  have h := locked_component_mutations lockedSampleC
    (.label "t" (1, 0)) (mkComponent "d" 9) none "p" (0, 0) 1 none (2, 0) "optical"
    ⟨some "r1", 1, "x", none, some 7⟩
    rfl rfl (by decide)
  exact ⟨h.1, h.2.2.2.2.1⟩

/-- C4: `add_port` with a name already present in the cell's port mapping
fails with the naming-conflict `ValueError` and returns with the cell — in
particular its port mapping — exactly as it was before the call. -/
theorem add_port_duplicate_rejected (c : Component) (name : Option String)
    (center : Option (ℚ × ℚ)) (width : Option ℚ) (orientation : Option ℚ)
    (port : Option Port) (layer : LayerKey) (pt : String)
    (hargs : port.isSome ∨ (width.isSome ∧ center.isSome))
    (hdup : (alookup c.ports (resolvedPortName name port)).isSome) :
    c.add_port name center width orientation port layer pt
      = (c, .error (.nameExists (resolvedPortName name port) c.name)) := by
  cases port with
  | some p0 =>
    cases name with
    | some n =>
      unfold Component.add_port finishAddPort
      simp only [resolvedPortName] at hdup ⊢
      simp [hdup]
    | none =>
      unfold Component.add_port finishAddPort
      simp only [resolvedPortName] at hdup ⊢
      simp [hdup]
  | none =>
    rcases hargs with h | ⟨hw, hc⟩
    · simp at h
    · obtain ⟨w, rfl⟩ := Option.isSome_iff_exists.mp hw
      obtain ⟨ctr, rfl⟩ := Option.isSome_iff_exists.mp hc
      cases name with
      | some n =>
        unfold Component.add_port finishAddPort
        simp only [resolvedPortName] at hdup ⊢
        simp [hdup]
      | none =>
        unfold Component.add_port finishAddPort
        simp only [resolvedPortName] at hdup ⊢
        simp [hdup]

/-- Witness for `add_port_duplicate_rejected`: a cell with a port `"o1"`
rejects a second `add_port` named `"o1"` and is returned unchanged. -/
theorem add_port_duplicate_rejected_witness :
    ({ mkComponent "c" 0 with
        ports := [(some "o1", ⟨some "o1", (0, 0), 1, none, (1, 0), "optical", some 0⟩)] }
      : Component).add_port (some "o1") (some (2, 2)) (some 3) none none (1, 0) "optical"
      = ({ mkComponent "c" 0 with
            ports := [(some "o1", ⟨some "o1", (0, 0), 1, none, (1, 0), "optical", some 0⟩)] },
         .error (.nameExists (some "o1") "c")) :=
  add_port_duplicate_rejected _ (some "o1") (some (2, 2)) (some 3) none none (1, 0) "optical"
    (Or.inr ⟨rfl, rfl⟩) (by decide)

/-- C8 (counterexample): for a cell with geometry on `(layer, datatype)`
pairs `(1, 2)` and `(2, 1)`, `hash_geometry` folds the `(2, 1)` layer first:
`np.lexsort((layers[:, 0], layers[:, 1]))` sorts with the datatype as the
primary key, so the fold order is not ascending in the claimed
layer-primary lexicographic order, under which `(1, 2)` would come first. -/
theorem hash_geometry_fold_order_counterexample :
    (hashCore [((1, 2), [[(0, 0)]]), ((2, 1), [[(1, 1)]])] 4).map Prod.fst
      = [(2, 1), (1, 2)] ∧
    ¬ specLayerDatatypeLe (2, 1) (1, 2) := by
  constructor
  · decide
  · decide

/-- C8 (amended): for every cell with geometry, the per-layer digests are
folded into the running digest in ascending lexicographic order of the
`(layer, datatype)` key with the DATATYPE as the primary sort key and the
layer number secondary (the order `np.lexsort((layers[:, 0],
layers[:, 1]))` produces). -/
theorem hash_geometry_fold_order (d : PolySpec) (ndigits : ℕ) (h : d ≠ []) :
    ∃ out, hash_geometry d ndigits = .ok out ∧
      List.Sorted layerLe (out.map Prod.fst) := by
  refine ⟨hashCore d ndigits, ?_, ?_⟩
  · unfold hash_geometry
    simp [h]
  · unfold hashCore
    rw [List.map_map]
    have heq : (Prod.fst ∘ fun k : LayerKey =>
        (k, canonPolys ndigits ((alookup d k).getD []))) = id := by
      funext k; rfl
    rw [heq, List.map_id]
    exact List.sorted_insertionSort layerLe (d.map Prod.fst)

/-- Witness for `hash_geometry_fold_order` on a two-layer cell. -/
theorem hash_geometry_fold_order_witness :
    ∃ out, hash_geometry [((1, 2), [[(0, 0)]]), ((2, 1), [[(1, 1)]])] 4 = .ok out ∧
      List.Sorted layerLe (out.map Prod.fst) :=
  hash_geometry_fold_order [((1, 2), [[(0, 0)]]), ((2, 1), [[(1, 1)]])] 4 (by decide)

/-- C3: `hash_geometry` is invariant under reordering of the polygons within
each layer and reordering of the layers themselves: two by-spec polygon
dicts whose key lists are permutations of one another and whose per-key
polygon lists are permutations of one another hash identically. -/
theorem hash_geometry_perm_invariant (d₁ d₂ : PolySpec) (ndigits : ℕ)
    (hkeys : (d₁.map Prod.fst).Perm (d₂.map Prod.fst))
    (hvals : ∀ k ∈ d₁.map Prod.fst,
      ((alookup d₁ k).getD []).Perm ((alookup d₂ k).getD [])) :
    hash_geometry d₁ ndigits = hash_geometry d₂ ndigits := by
  have hsort : List.insertionSort layerLe (d₁.map Prod.fst)
      = List.insertionSort layerLe (d₂.map Prod.fst) := by
    exact List.eq_of_perm_of_sorted
      ((List.perm_insertionSort layerLe (d₁.map Prod.fst)).trans
        (hkeys.trans (List.perm_insertionSort layerLe (d₂.map Prod.fst)).symm))
      (List.sorted_insertionSort layerLe _) (List.sorted_insertionSort layerLe _)
  by_cases hnil : d₁ = []
  · subst hnil
    have h2 : d₂ = [] := by
      have hmap : d₂.map Prod.fst = [] := (hkeys.symm.eq_nil)
      exact List.map_eq_nil_iff.mp hmap
    subst h2
    rfl
  · have hnil₂ : d₂ ≠ [] := by
      intro h2
      subst h2
      have hmap : d₁.map Prod.fst = [] := hkeys.eq_nil
      exact hnil (List.map_eq_nil_iff.mp hmap)
    have e1 : d₁.isEmpty = false := by
      cases d₁ with
      | nil => exact absurd rfl hnil
      | cons a l => rfl
    have e2 : d₂.isEmpty = false := by
      cases d₂ with
      | nil => exact absurd rfl hnil₂
      | cons a l => rfl
    unfold hash_geometry
    rw [e1, e2]
    simp only [Bool.false_eq_true, if_false, Except.ok.injEq]
    unfold hashCore
    rw [hsort]
    apply List.map_congr_left
    intro k hk
    have hk₂ : k ∈ d₂.map Prod.fst := (List.mem_insertionSort layerLe).mp hk
    have hk₁ : k ∈ d₁.map Prod.fst := hkeys.mem_iff.mpr hk₂
    have hperm := hvals k hk₁
    have hcanon : canonPolys ndigits ((alookup d₁ k).getD [])
        = canonPolys ndigits ((alookup d₂ k).getD []) := by
      unfold canonPolys
      exact List.eq_of_perm_of_sorted
        ((List.perm_insertionSort polyLe _).trans
          ((hperm.map (rndPoly ndigits)).trans (List.perm_insertionSort polyLe _).symm))
        (List.sorted_insertionSort polyLe _) (List.sorted_insertionSort polyLe _)
    rw [hcanon]

/-- Witness for `hash_geometry_perm_invariant`: the same two-layer geometry
in two emission orders (layers swapped, polygons within the first layer
swapped) hashes identically. -/
theorem hash_geometry_perm_invariant_witness :
    hash_geometry [((1, 0), [[(0, 0), (1, 0)], [(5, 5)]]), ((2, 0), [[(2, 3)]])] 4
      = hash_geometry [((2, 0), [[(2, 3)]]), ((1, 0), [[(5, 5)], [(0, 0), (1, 0)]])] 4 :=
  hash_geometry_perm_invariant
    [((1, 0), [[(0, 0), (1, 0)], [(5, 5)]]), ((2, 0), [[(2, 3)]])]
    [((2, 0), [[(2, 3)]]), ((1, 0), [[(5, 5)], [(0, 0), (1, 0)]])]
    4 (by decide) (by decide)

/-- Bounds for round-half-to-even: the rounded value is within one half of
the input. -/
theorem roundHalfEven_bounds (q : ℚ) :
    q - 1/2 ≤ (roundHalfEven q : ℚ) ∧ (roundHalfEven q : ℚ) ≤ q + 1/2 := by
  have h1 : ((⌊q⌋ : ℤ) : ℚ) ≤ q := Int.floor_le q
  have h2 : q < ((⌊q⌋ : ℤ) : ℚ) + 1 := Int.lt_floor_add_one q
  unfold roundHalfEven
  split_ifs with ha hb hc
  · constructor <;> push_cast <;> linarith
  · constructor <;> push_cast <;> linarith
  · constructor <;> push_cast <;> linarith
  · constructor <;> push_cast <;> linarith

/-- Round-half-to-even moves by at least one when the input moves by more
than one. -/
theorem roundHalfEven_ne_of_one_lt (y ε : ℚ) (h : 1 < |ε|) :
    roundHalfEven (y + ε) ≠ roundHalfEven y := by
  intro heq
  have b1 := roundHalfEven_bounds (y + ε)
  have b2 := roundHalfEven_bounds y
  have hcast : ((roundHalfEven (y + ε) : ℤ) : ℚ) = ((roundHalfEven y : ℤ) : ℚ) := by
    exact_mod_cast heq
  rcases lt_abs.mp h with h' | h' <;> linarith [b1.1, b1.2, b2.1, b2.2]

/-- Moving a coordinate by more than the rounding precision `10 ^ (-ndigits)`
always changes the output of `_rnd` on that coordinate. -/
theorem _rnd_ne_of_gt_precision (x δ : ℚ) (ndigits : ℕ) (h : 1 < |δ| * 10 ^ ndigits) :
    _rnd (x + δ) ndigits ≠ _rnd x ndigits := by
  unfold _rnd
  have hpos : (0 : ℚ) < 10 ^ ndigits := by positivity
  have hrw : (x + δ) * 10 ^ ndigits = x * 10 ^ ndigits + δ * 10 ^ ndigits := by ring
  rw [hrw]
  apply roundHalfEven_ne_of_one_lt
  rw [abs_mul, abs_of_pos hpos]
  exact h

/-- Replacing one list entry keeps the rest: `(l.set i b) ++ [a]` is a
permutation of `l ++ [b]` when `a` sits at index `i` of `l`. -/
theorem set_append_perm {α : Type} (l : List α) (i : ℕ) (a b : α)
    (h : l.get? i = some a) : ((l.set i b) ++ [a]).Perm (l ++ [b]) := by
  induction l generalizing i with
  | nil => simp at h
  | cons c cs ih =>
    cases i with
    | zero =>
      rw [List.get?_cons_zero] at h
      injection h with h
      subst h
      simp only [List.set]
      exact ((List.perm_append_singleton c cs).cons b).trans
        ((List.Perm.swap c b cs).trans
          (((List.perm_append_singleton b cs).symm).cons c))
    | succ n =>
      rw [List.get?_cons_succ] at h
      simp only [List.set, List.cons_append]
      exact (ih n h).cons c

/-- Replacing one entry of a list by a genuinely different value changes its
sorted form: the multisets differ, and sorting is injective on multisets. -/
theorem insertionSort_set_ne {l : List RPoly} {i : ℕ} {a b : RPoly}
    (h : l.get? i = some a) (hne : b ≠ a) :
    List.insertionSort polyLe (l.set i b) ≠ List.insertionSort polyLe l := by
  intro heq
  have h1 : (l.set i b).Perm (List.insertionSort polyLe (l.set i b)) :=
    (List.perm_insertionSort polyLe (l.set i b)).symm
  rw [heq] at h1
  have hp : (l.set i b).Perm l := h1.trans (List.perm_insertionSort polyLe l)
  have hc1 := hp.count_eq b
  have hc2 := (set_append_perm l i a b h).count_eq b
  simp only [List.count_append] at hc2
  rw [hc1] at hc2
  simp only [List.count_cons, List.count_nil, beq_iff_eq, Ne.symm hne, if_false,
    if_true, reduceIte] at hc2
  omega

/-- Equal maps over the same list agree on every member. -/
theorem map_eq_map_mem {α β : Type} {f g : α → β} {l : List α}
    (h : l.map f = l.map g) {x : α} (hx : x ∈ l) : f x = g x := by
  induction l with
  | nil => simp at hx
  | cons c cs ih =>
    simp only [List.map_cons, List.cons.injEq] at h
    rcases List.mem_cons.mp hx with rfl | hx'
    · exact h.1
    · exact ih h.2 hx'

/-- A key found by `alookup` is among the dict's keys. -/
theorem alookup_mem_keys {κ β : Type} [DecidableEq κ] {d : List (κ × β)} {k : κ} {v : β}
    (h : alookup d k = some v) : k ∈ d.map Prod.fst := by
  induction d with
  | nil => simp [alookup] at h
  | cons e rest ih =>
    obtain ⟨k', v'⟩ := e
    by_cases he : k' = k
    · subst he
      simp
    · simp only [alookup, if_neg he] at h
      simpa using Or.inr (ih h)

/-- `moveVertexX` rewrites exactly the looked-up layer's polygon list. -/
theorem alookup_moveVertexX_self {d : PolySpec} {k : LayerKey} (i j : ℕ) (δ : ℚ)
    {v : List QPoly} (h : alookup d k = some v) :
    alookup (moveVertexX d k i j δ) k
      = some (listModify v i (fun poly => listModify poly j (fun pt => (pt.1 + δ, pt.2)))) := by
  induction d with
  | nil => simp [alookup] at h
  | cons e rest ih =>
    obtain ⟨k', v'⟩ := e
    by_cases he : k' = k
    · subst he
      have hv : v' = v := by simpa [alookup] using h
      subst hv
      unfold moveVertexX
      rw [List.map_cons, if_pos rfl]
      simp [alookup]
    · simp only [alookup, if_neg he] at h
      simp only [moveVertexX, List.map_cons]
      rw [if_neg he]
      simp only [alookup, if_neg he]
      exact ih h

/-- `moveVertexX` preserves the dict's key list. -/
theorem moveVertexX_keys (d : PolySpec) (k : LayerKey) (i j : ℕ) (δ : ℚ) :
    (moveVertexX d k i j δ).map Prod.fst = d.map Prod.fst := by
  unfold moveVertexX
  rw [List.map_map]
  apply List.map_congr_left
  intro e _
  by_cases he : e.1 = k <;> simp [Function.comp, he]

/-- C7 (amended): moving one vertex coordinate of any cell's geometry by
more than the rounding precision `10 ^ (-ndigits)` always changes
`hash_geometry` (the byte stream fed to the digest changes). -/
theorem hash_geometry_vertex_move_gt_precision (d : PolySpec) (ndigits : ℕ)
    (k : LayerKey) (i j : ℕ) (δ : ℚ) (polys : List QPoly) (poly : QPoly) (pt : ℚ × ℚ)
    (h1 : alookup d k = some polys) (h2 : polys.get? i = some poly)
    (h3 : poly.get? j = some pt) (hδ : 1 < |δ| * 10 ^ ndigits) :
    hash_geometry (moveVertexX d k i j δ) ndigits ≠ hash_geometry d ndigits := by
  intro heq
  have hd : d ≠ [] := by
    intro h0; subst h0; simp [alookup] at h1
  have e2 : d.isEmpty = false := by
    cases d with
    | nil => exact absurd rfl hd
    | cons a l => rfl
  have e1 : (moveVertexX d k i j δ).isEmpty = false := by
    unfold moveVertexX
    cases d with
    | nil => exact absurd rfl hd
    | cons a l => rfl
  unfold hash_geometry at heq
  rw [e1, e2] at heq
  simp only [Bool.false_eq_true, if_false, Except.ok.injEq] at heq
  unfold hashCore at heq
  rw [moveVertexX_keys] at heq
  have hk : k ∈ List.insertionSort layerLe (d.map Prod.fst) :=
    (List.mem_insertionSort layerLe).mpr (alookup_mem_keys h1)
  have hpair := map_eq_map_mem heq hk
  rw [alookup_moveVertexX_self i j δ h1, h1] at hpair
  simp only [Option.getD_some, Prod.mk.injEq, true_and] at hpair
  have hjlt : j < poly.length := (List.get?_eq_some.mp h3).1
  have hset2 : listModify poly j (fun pt => (pt.1 + δ, pt.2))
      = poly.set j (pt.1 + δ, pt.2) := by
    unfold listModify; rw [h3]
  have hfne : rndPoly ndigits (listModify poly j (fun pt => (pt.1 + δ, pt.2)))
      ≠ rndPoly ndigits poly := by
    intro hfeq
    rw [hset2] at hfeq
    unfold rndPoly at hfeq
    rw [List.map_set] at hfeq
    have hg1 := List.get?_set_eq_of_lt
      ((_rnd (pt.1 + δ) ndigits, _rnd pt.2 ndigits))
      (by simpa using hjlt :
        j < (poly.map (fun pt => (_rnd pt.1 ndigits, _rnd pt.2 ndigits))).length)
    rw [hfeq, List.get?_map, h3] at hg1
    simp only [Option.map_some', Option.some.injEq, Prod.mk.injEq] at hg1
    exact _rnd_ne_of_gt_precision pt.1 δ ndigits hδ hg1.1.symm
  have hset1 : listModify polys i (fun poly => listModify poly j (fun pt => (pt.1 + δ, pt.2)))
      = polys.set i (listModify poly j (fun pt => (pt.1 + δ, pt.2))) := by
    unfold listModify; rw [h2]
  unfold canonPolys at hpair
  rw [hset1, List.map_set] at hpair
  have hget : (polys.map (rndPoly ndigits)).get? i = some (rndPoly ndigits poly) := by
    rw [List.get?_map, h2]; rfl
  exact insertionSort_set_ne hget hfne hpair

/-- Witness for `hash_geometry_vertex_move_gt_precision`: moving the single
vertex of a one-polygon cell by 1 (far above the default precision `1e-4`)
changes the hash. -/
theorem hash_geometry_vertex_move_gt_precision_witness :
    hash_geometry (moveVertexX [((1, 0), [[(0, 0)]])] (1, 0) 0 0 1) 4
      ≠ hash_geometry [((1, 0), [[(0, 0)]])] 4 :=
  hash_geometry_vertex_move_gt_precision [((1, 0), [[(0, 0)]])] 4 (1, 0) 0 0 1
    [[(0, 0)]] [(0, 0)] (0, 0) (by decide) (by decide) (by decide) (by norm_num)

/-- C7 (counterexample): moving a vertex by `0.00004`, which is less than
the default rounding precision `1e-4`, still changes `hash_geometry`: the
move crosses a rounding boundary (`0.00004` rounds to grid point 0 but
`0.00008` rounds to grid point 1), so a sub-precision move does not leave
the hash unchanged. -/
theorem hash_geometry_small_move_changes_counterexample :
    |(4 : ℚ) / 100000| < 1 / 10 ^ 4 ∧
    hash_geometry (moveVertexX [((1, 0), [[(4/100000, 0)]])] (1, 0) 0 0 (4/100000)) 4
      ≠ hash_geometry [((1, 0), [[(4/100000, 0)]])] 4 := by
  constructor
  · rw [abs_of_pos (by norm_num)]
    norm_num
  · have hrA : _rnd ((4:ℚ)/100000) 4 = 0 := by
      unfold _rnd
      have h1 : ((4:ℚ)/100000) * 10^4 = 2/5 := by norm_num
      rw [h1]
      unfold roundHalfEven
      have hf : ⌊(2:ℚ)/5⌋ = 0 := by
        rw [Int.floor_eq_iff]
        norm_num
      rw [hf]
      norm_num
    have hrB : _rnd ((4:ℚ)/100000 + 4/100000) 4 = 1 := by
      unfold _rnd
      have h1 : ((4:ℚ)/100000 + 4/100000) * 10^4 = 4/5 := by norm_num
      rw [h1]
      unfold roundHalfEven
      have hf : ⌊(4:ℚ)/5⌋ = 0 := by
        rw [Int.floor_eq_iff]
        norm_num
      rw [hf]
      norm_num
    have hr0 : _rnd (0:ℚ) 4 = 0 := by
      unfold _rnd
      norm_num
      unfold roundHalfEven
      simp
    have hmv : moveVertexX [((1, 0), [[(4/100000, 0)]])] (1, 0) 0 0 (4/100000)
        = [((1, 0), [[((4:ℚ)/100000 + 4/100000, 0)]])] := by
      simp [moveVertexX, listModify]
    rw [hmv]
    unfold hash_geometry
    simp only [List.isEmpty_cons, Bool.false_eq_true, if_false, ne_eq, Except.ok.injEq]
    unfold hashCore canonPolys
    simp only [List.map_cons, List.map_nil, List.insertionSort, List.orderedInsert,
      alookup, if_pos rfl, Option.getD_some, rndPoly]
    rw [hrA, hrB, hr0]
    decide

/-- C9 (counterexample): a failing conversion (the `layout.read` step raises)
propagates out of `write_oas` with the temporary GDS file still on disk —
there is no `try`/`finally` cleanup. -/
theorem write_oas_tmp_left_on_failure_counterexample :
    ((mkComponent "c" 0).write_oas "b.oas" ⟨true, false, true⟩ []).2 = .error .readError ∧
    oasTmpName "b.oas" ∈ ((mkComponent "c" 0).write_oas "b.oas" ⟨true, false, true⟩ []).1 := by
  constructor
  · decide
  · decide

/-- C9 (amended): for a non-`.gds` filename with the `klayout` dependency
available, the temporary GDS file is removed when the conversion succeeds,
but when `layout.read` or `topcell.write` fails the call raises and the
temporary file is left behind (the source has no `try`/`finally`). -/
theorem write_oas_tmp_file_behavior (c : Component) (filename : String)
    (env : OasEnv) (fs : List String)
    (hgds : strEndsWith (strToLower filename) ".gds" = false)
    (hk : env.klayoutAvailable = true)
    (htmp : oasTmpName filename ∉ fs) :
    (env.readOk = true → env.writeOk = true →
      c.write_oas filename env fs
        = (fs ++ [oasFinalName filename], .ok (some (oasFinalName filename)))) ∧
    (env.readOk = false →
      c.write_oas filename env fs = (fs ++ [oasTmpName filename], .error .readError)) ∧
    (env.readOk = true → env.writeOk = false →
      c.write_oas filename env fs = (fs ++ [oasTmpName filename], .error .writeError)) := by
  have herase :
      ((fs ++ [oasTmpName filename]) ++ [oasFinalName filename]).erase (oasTmpName filename)
        = fs ++ [oasFinalName filename] := by
    rw [List.append_assoc, List.erase_append_right _ htmp]
    simp [List.erase_cons_head]
  refine ⟨?_, ?_, ?_⟩
  · intro hr hw
    simp only [Component.write_oas, hgds, hk, hr, hw, Bool.false_eq_true, if_false,
      Bool.not_true, not_false_eq_true, not_true_eq_false, if_true, herase]
  · intro hr
    simp only [Component.write_oas, hgds, hk, hr, Bool.false_eq_true, if_false,
      Bool.not_true, Bool.not_false, not_false_eq_true, not_true_eq_false, if_true]
  · intro hr hw
    simp only [Component.write_oas, hgds, hk, hr, hw, Bool.false_eq_true, if_false,
      Bool.not_true, Bool.not_false, not_false_eq_true, not_true_eq_false, if_true]

/-- Witness for `write_oas_tmp_file_behavior` at a concrete filename and a
failing read step. -/
theorem write_oas_tmp_file_behavior_witness :
    ((⟨true, false, true⟩ : OasEnv).readOk = false →
      (mkComponent "w" 3).write_oas "b.oas" ⟨true, false, true⟩ []
        = ([] ++ [oasTmpName "b.oas"], .error .readError)) ∧
    oasTmpName "b.oas" = "b-tmp.gds" := by
  constructor
  · exact (write_oas_tmp_file_behavior (mkComponent "w" 3) "b.oas" ⟨true, false, true⟩ []
      (by decide) rfl (by decide)).2.1
  · decide

/-- Folding `erase` over a list of names lowers each count by at most that
name's count in the erased list. -/
theorem count_foldl_erase (u l : List String) (n : String) :
    l.count n - u.count n ≤ (u.foldl (fun acc m => acc.erase m) l).count n := by
  induction u generalizing l with
  | nil => simp
  | cons a u ih =>
    simp only [List.foldl_cons, List.count_cons]
    have h := ih (l.erase a)
    rw [List.count_erase] at h
    by_cases han : a = n
    · subst han
      simp only [beq_self_eq_true, if_true] at h ⊢
      omega
    · have hb : (a == n) = false := beq_eq_false_iff_ne.mpr han
      simp only [hb, if_false] at h ⊢
      omega

/-- Every name occurring at least twice among the dependency cell names
survives into `duplicateExtras` — the error payload lists every duplicated
name. -/
theorem mem_duplicateExtras {cellNames : List String} {n : String}
    (h : 2 ≤ cellNames.count n) : n ∈ duplicateExtras cellNames := by
  have h1 := count_foldl_erase cellNames.dedup cellNames n
  have h2 : cellNames.dedup.count n ≤ 1 :=
    List.nodup_iff_count_le_one.mp (List.nodup_dedup cellNames) n
  apply List.count_pos_iff.mp
  unfold duplicateExtras
  omega

/-- The source's duplicate test `len(cell_names) != len(set(cell_names))`
holds exactly when the name list has a duplicate. -/
theorem length_ne_dedup_of_not_nodup {l : List String} (h : ¬ l.Nodup) :
    ¬ l.length = l.dedup.length := by
  intro hlen
  apply h
  have hd : l.dedup = l := (List.dedup_sublist l).eq_of_length hlen.symm
  rw [← hd]
  exact List.nodup_dedup l

/-- `filterMap` by a function that maps every member to itself is the
identity. -/
theorem filterMap_eq_self {α : Type} {g : α → Option α} :
    ∀ {l : List α}, (∀ x ∈ l, g x = some x) → l.filterMap g = l := by
  intro l
  induction l with
  | nil => intro _; rfl
  | cons a as ih =>
    intro h
    rw [List.filterMap_cons, h a (by simp)]
    rw [ih (fun x hx => h x (by simp [hx]))]

/-- The names surviving the `{cell.name: cell}` dict resolution are exactly
the distinct dependency names, in first-occurrence order. -/
theorem dedupKeepLast_names (cells : List Component) :
    (dedupKeepLast cells).map Component.name = (cells.map Component.name).dedup := by
  unfold dedupKeepLast
  rw [List.map_filterMap]
  apply filterMap_eq_self
  intro n hn
  have hn' : n ∈ cells.map Component.name := List.mem_dedup.mp hn
  obtain ⟨cc, hcc, hname⟩ := List.mem_map.mp hn'
  have hne : cells.filter (fun x => x.name = n) ≠ [] := by
    intro hemp
    have hm : cc ∈ cells.filter (fun x => x.name = n) :=
      List.mem_filter.mpr ⟨hcc, by simp [hname]⟩
    rw [hemp] at hm
    simp at hm
  have hmem := List.getLast_mem hne
  have hpred := (List.mem_filter.mp hmem).2
  simp only [decide_eq_true_eq] at hpred
  rw [List.getLast?_eq_getLast_of_ne_nil hne]
  simp only [Option.map_some']
  exact congrArg some hpred

/-- Sorting the resolved cells by name does not change any name's count. -/
theorem count_name_sorted_dedupKeepLast (cells : List Component) (n : String) :
    ((sortByName (dedupKeepLast cells)).map Component.name).count n
      = ((cells.map Component.name).dedup).count n := by
  have hperm : (sortByName (dedupKeepLast cells)).Perm (dedupKeepLast cells) :=
    List.perm_insertionSort _ _
  rw [(hperm.map Component.name).count_eq, dedupKeepLast_names]

/-- C5: when the recursive dependency set contains two distinct cells with
the same name, `write_gds` with `on_duplicate_cell="error"` raises a
`ValueError` whose payload contains every duplicated name, before
`lib.write_gds` writes any bytes; with `"warn"` it succeeds, emits an
observable duplicate-name warning, and the written cell set contains exactly
one cell per dependency name. -/
theorem write_gds_duplicate_cells (c : Component) (cells : List Component)
    (hdup : ¬ (cells.map Component.name).Nodup)
    (hself : c.name ∉ cells.map Component.name) :
    ((c.write_gds cells (some "error")).outcome
        = .duplicateError c.name (duplicateExtras (cells.map Component.name)) ∧
      (c.write_gds cells (some "error")).bytesWritten = false ∧
      ∀ n, 2 ≤ (cells.map Component.name).count n →
        n ∈ duplicateExtras (cells.map Component.name)) ∧
    ((c.write_gds cells (some "warn")).bytesWritten = true ∧
      GdsWarning.duplicatedCellNames c.name (duplicateExtras (cells.map Component.name))
        ∈ (c.write_gds cells (some "warn")).warnings ∧
      ∃ written, (c.write_gds cells (some "warn")).outcome = .written written ∧
        ∀ n ∈ cells.map Component.name, (written.map Component.name).count n = 1) := by
  have hlen := length_ne_dedup_of_not_nodup hdup
  constructor
  · refine ⟨?_, ?_, fun n hn => mem_duplicateExtras hn⟩
    · simp only [Component.write_gds, if_neg hlen]
    · simp only [Component.write_gds, if_neg hlen]
  · refine ⟨?_, ?_, ⟨c :: sortByName (dedupKeepLast cells), ?_, ?_⟩⟩
    · simp only [Component.write_gds, if_neg hlen]
    · simp only [Component.write_gds, if_neg hlen]
      exact List.mem_cons_self _ _
    · simp only [Component.write_gds, if_neg hlen]
    · intro n hn
      rw [List.map_cons, List.count_cons]
      have hcn : (c.name == n) = false := by
        apply beq_eq_false_iff_ne.mpr
        intro he
        exact hself (he ▸ hn)
      rw [hcn, count_name_sorted_dedupKeepLast, List.count_dedup]
      simp [hn]

/-- Witness for `write_gds_duplicate_cells`: two distinct cells both named
`"a"` under a top cell named `"top"`. -/
theorem write_gds_duplicate_cells_witness :
    ((mkComponent "top" 0).write_gds [mkComponent "a" 1, mkComponent "a" 2]
        (some "error")).bytesWritten = false ∧
    ((mkComponent "top" 0).write_gds [mkComponent "a" 1, mkComponent "a" 2]
        (some "warn")).bytesWritten = true ∧
    GdsWarning.duplicatedCellNames "top"
        (duplicateExtras ([mkComponent "a" 1, mkComponent "a" 2].map Component.name))
      ∈ ((mkComponent "top" 0).write_gds [mkComponent "a" 1, mkComponent "a" 2]
          (some "warn")).warnings := by
  have h := write_gds_duplicate_cells (mkComponent "top" 0)
    [mkComponent "a" 1, mkComponent "a" 2] (by decide) (by decide)
  exact ⟨h.1.2.1, h.2.1, h.2.2.1⟩
